import Mathlib

/-!
Verification of the parser-combinator core (package `gomme`, files
`state.go` and `error.go`) against its natural-language specification.

The Go code is shallowly embedded: the `State` value (cursor, caches,
error-handling slot, parsing mode) becomes a Lean structure, Go `int`
fields become `Int` (byte positions, which are never negative, become
`Nat`), Go maps shared by reference become function-valued fields that
are threaded explicitly, and Go strings become `List Char` with byte
offsets computed from `Char.utf8Size`.  Loops whose termination depends
on parser functions supplied by the environment are embedded with fuel.
-/

namespace Parcomb

/-- The five parsing modes of the recovery state machine
(`ParsingModeHappy` … `ParsingModeEscape` in the source). -/
inductive ParsingMode where
  | happy
  | err
  | handle
  | rewind
  | escape
deriving DecidableEq, Repr

/-- Total UTF-8 byte length of a character list (Go `len(string)`). -/
def utf8Len (cs : List Char) : Nat :=
  (cs.map Char.utf8Size).sum

/-- Drop the characters occupying the first `k` bytes (Go string slicing
`s[k:]`).  All byte offsets produced by the source sit on rune
boundaries; on a non-boundary offset this snaps to the next boundary. -/
def dropBytes : List Char → Nat → List Char
  | cs, 0 => cs
  | [], _ => []
  | c :: cs, k => dropBytes cs (k - c.utf8Size)

/-- Take the characters occupying the first `k` bytes (Go string slicing
`s[:k]`). -/
def takeBytes : List Char → Nat → List Char
  | _, 0 => []
  | [], _ => []
  | c :: cs, k => c :: takeBytes cs (k - c.utf8Size)

/-- Byte offset of the last newline in a character list, `-1` if there is
none (Go `strings.LastIndexByte(s, 0x0A)`; a newline is a single byte and
can never occur inside a multi-byte UTF-8 rune). -/
def lastNlOffset : List Char → Int
  | [] => -1
  | c :: cs =>
    let r := lastNlOffset cs
    if r ≥ 0 then (c.utf8Size : Int) + r
    else if c = '\n' then 0 else -1

/-- Number of newlines in a character list (Go `strings.Count(s, "\n")`). -/
def countNl (cs : List Char) : Int :=
  ((cs.filter (fun c => c = '\n')).length : Int)

/-- The byte offsets at which the runes of a string start
(Go `for i := range s`). -/
def runeOffsets : List Char → Nat → List Nat
  | [], _ => []
  | c :: cs, o => o :: runeOffsets cs (o + c.utf8Size)

/-- Structured parser error (`ParserError` in `state.go`). -/
structure ParserError where
  text : String
  pos : Nat
  line : Int
  col : Int
  srcLine : List Char
  binary : Bool
  parserID : Int
deriving DecidableEq, Repr

/-- Everything needed for handling one error (`errHand` in `error.go`). -/
structure ErrHand where
  err : Option ParserError
  witnessID : Nat
  witnessPos : Nat
  culpritIdx : Int
  curDel : Int
  ignoreErrParser : Bool
deriving DecidableEq, Repr

/-- Entry of the recoverer-waste cache (`cachedWaste` in `state.go`). -/
structure CachedWaste where
  pos : Nat
  waste : Int
deriving DecidableEq, Repr

/-- Entry of the combining-recoverer waste+index cache (`cachedWasteIdx`
in `state.go`). -/
structure CachedWasteIdx where
  pos : Nat
  waste : Int
  idx : Int
deriving DecidableEq, Repr

/-- Entry of the parser-result cache (`ParserResult` in `state.go`).
The Go `Output interface\x7b\x7d` field is type erased; an `Int` token
stands for the stored value. -/
structure ParserResult where
  pos : Nat
  Idx : Int
  HasSaveSpot : Bool
  SaveSpotIdx : Int
  SaveSpotStart : Int
  SaveSpot : Int
  Failed : Bool
  ErrorStart : Int
  Consumed : Int
  Output : Int
  Error : Option ParserError
deriving DecidableEq, Repr

/-- Entry of the output cache (`ParserOutput` in `state.go`). -/
structure ParserOutput where
  pos : Nat
  Output : Int
deriving DecidableEq, Repr

/-- The input cursor (`Input`; its field set is determined by its uses in
`state.go`: two content views, total byte length `n`, byte position
`pos`, the last-newline offset `prevNl`, the 1-based line number `line`,
and the `binary` flag). -/
structure Input where
  text : List Char
  bytes : List Nat
  n : Nat
  pos : Nat
  prevNl : Int
  line : Int
  binary : Bool

/-- The parser state (`State` in `state.go`).  The Go caches are maps
shared by reference across all states of one run; here they are
function-valued fields updated functionally.  A Go map with a missing
key behaves exactly like one holding an empty list, so absent entries
are represented by `[]`.  `maxDel` and `maxRecursion` are the tuning
constants the methods read from the state. -/
structure State where
  mode : ParsingMode
  input : Input
  saveSpot : Int
  recover : Bool
  errHand : ErrHand
  oldErrors : List ParserError
  recovererWasteCache : Nat → List CachedWaste
  recovererWasteIdxCache : Nat → List CachedWasteIdx
  parserCache : Nat → List ParserResult
  outputCache : Int → List ParserOutput
  maxDel : Int
  maxRecursion : Int

/-- `State.AtEnd`. -/
def State.AtEnd (st : State) : Bool :=
  st.input.pos ≥ st.input.n

/-- `State.BytesRemaining`. -/
def State.BytesRemaining (st : State) : Int :=
  (st.input.n : Int) - (st.input.pos : Int)

/-- `State.CurrentString` (the characters after the cursor; the lazy
byte/text materialization of the source is content conversion only). -/
def State.CurrentString (st : State) : List Char :=
  dropBytes st.input.text st.input.pos

/-- `State.CurrentPos`. -/
def State.CurrentPos (st : State) : Nat :=
  st.input.pos

/-- `State.ByteCount`. -/
def State.ByteCount (st : State) (remaining : State) : Int :=
  if remaining.input.pos < st.input.pos then 0
  else if remaining.input.pos > st.input.n then (st.input.n : Int) - (st.input.pos : Int)
  else (remaining.input.pos : Int) - (st.input.pos : Int)

/-- `State.MoveBy`: clamp the count at `[0, n-pos]`, advance `pos`, and
for text input bump `prevNl` and `line` from the moved-over text. -/
def State.MoveBy (st : State) (countBytes : Int) : State :=
  let cb := (max countBytes 0).toNat
  let pos := st.input.pos
  let np := min st.input.n (pos + cb)
  let input1 := { st.input with pos := np }
  if st.input.binary then { st with input := input1 }
  else
    let moveText := takeBytes (dropBytes st.input.text pos) (np - pos)
    let lastNlPos := lastNlOffset moveText
    if lastNlPos ≥ 0 then
      { st with input := { input1 with
          prevNl := input1.prevNl + lastNlPos + 1,
          line := input1.line + countNl moveText } }
    else { st with input := input1 }

/-- `State.Moved`. -/
def State.Moved (st other : State) : Bool :=
  st.input.pos ≠ other.input.pos

/-- Loop body of the text case of `State.Delete`: Go iterates
`for i := range CurrentString()` over the rune start offsets, adds each
offset to `byteCount` and stops as soon as `count` runes were seen. -/
def deleteLoop (count : Int) : List Nat → Nat → Int → Nat
  | [], byteCount, _ => byteCount
  | i :: rest, byteCount, j =>
    let bc := byteCount + i
    let jn := j + 1
    if jn ≥ count then bc else deleteLoop count rest bc jn

/-- `State.Delete`: forward movement simulating deletion; bytes for
binary input, runes otherwise. -/
def State.Delete (st : State) (count : Int) : State :=
  if count ≤ 0 then st
  else if st.input.binary then st.MoveBy count
  else st.MoveBy (deleteLoop count (runeOffsets st.CurrentString 0) 0 0 : Nat)

/-- `State.Failed`: the state carries an unhandled error. -/
def State.Failed (st : State) : Bool :=
  st.errHand.err.isSome

/-- `State.HasError`. -/
def State.HasError (st : State) : Bool :=
  !st.oldErrors.isEmpty || st.errHand.err.isSome

/-- Modelled from the spec: `IndexOrMinFunc` is called by `cacheValue`
but is not among the given files.  Per the spec, at capacity the slot
whose key is nearest to the new key by ordering comparison is
overwritten; this returns the index of the first element whose key has
minimal distance to the new key (never out of range for nonempty
lists). -/
def indexOrMinAux {T : Type} (key : T → Int) (kv : Int) :
    List T → Nat → Nat → Nat → Nat
  | [], _, bestIdx, _ => bestIdx
  | t :: ts, i, bestIdx, bestDist =>
    let d := (key t - kv).natAbs
    if d < bestDist then indexOrMinAux key kv ts (i + 1) i d
    else indexOrMinAux key kv ts (i + 1) bestIdx bestDist

/-- Modelled from the spec: entry point of the nearest-key search, see
`indexOrMinAux`. -/
def indexOrMinFunc {T : Type} (key : T → Int) (l : List T) (v : T) : Nat :=
  match l with
  | [] => 0
  | t :: ts => indexOrMinAux key (key v) ts 1 0 ((key t - key v).natAbs)

/-- Per-list part of `cacheValue` in `state.go`: capacity is
`max(maxDel+1, 8)`; below capacity an entry with the same key is
overwritten in place and otherwise the value is appended; at capacity
the entry whose key is nearest to the new key is overwritten. -/
def cacheList {T : Type} (key : T → Int) (maxDel : Int)
    (scache : List T) (value : T) : List T :=
  let cacheSize : Int := max (maxDel + 1) 8
  if scache.isEmpty then [value]
  else if (scache.length : Int) < cacheSize then
    match scache.findIdx? (fun t => key t == key value) with
    | none => scache ++ [value]
    | some i => scache.set i value
  else scache.set (indexOrMinFunc key scache value) value

/-- `cacheValue` in `state.go`, lifted over the cache map. -/
def cacheValue {T U : Type} [DecidableEq U] (key : T → Int) (maxDel : Int)
    (cache : U → List T) (id : U) (value : T) : U → List T :=
  fun i => if i = id then cacheList key maxDel (cache id) value else cache i

/-- `cachedValue` in `state.go`: linear lookup by predicate. -/
def cachedValue {T U : Type} (cache : U → List T) (id : U)
    (p : T → Bool) : Option T :=
  (cache id).find? p

/-- `State.cacheRecovererWaste`. -/
def State.cacheRecovererWaste (st : State) (id : Nat) (waste : Int) : State :=
  let entry : CachedWaste := { pos := st.input.pos, waste := waste }
  { st with recovererWasteCache :=
      cacheValue (fun w => (w.pos : Int)) st.maxDel st.recovererWasteCache id entry }

/-- `State.cachedRecovererWaste`. -/
def State.cachedRecovererWaste (st : State) (id : Nat) : Option Int :=
  (cachedValue st.recovererWasteCache id (fun w => w.pos == st.input.pos)).map
    (fun w => w.waste)

/-- `State.cacheRecovererWasteIdx`. -/
def State.cacheRecovererWasteIdx (st : State) (crID : Nat)
    (waste idx : Int) : State :=
  let entry : CachedWasteIdx := { pos := st.input.pos, waste := waste, idx := idx }
  { st with recovererWasteIdxCache :=
      cacheValue (fun w => (w.pos : Int)) st.maxDel st.recovererWasteIdxCache crID entry }

/-- `State.cachedRecovererWasteIdx`. -/
def State.cachedRecovererWasteIdx (st : State) (crID : Nat) :
    Option CachedWasteIdx :=
  cachedValue st.recovererWasteIdxCache crID (fun w => w.pos == st.input.pos)

/-- `State.CacheParserResult`: build the `ParserResult` for `(id, pos)`
from the sub-parser's end state and store it.  The composite literal in
the source omits the `Consumed` field, so it holds Go's zero value. -/
def State.CacheParserResult (st : State) (id : Nat) (idx : Int)
    (saveSpotIdx : Int) (saveSpotStart : Int) (newState : State)
    (output : Int) : State :=
  let mark : Int := if saveSpotStart ≥ 0 then newState.saveSpot else -1
  let errStart : Int :=
    if newState.errHand.err.isSome then st.ByteCount newState else 0
  let result : ParserResult :=
    { pos := st.input.pos
      Idx := idx
      Failed := newState.Failed
      SaveSpotIdx := saveSpotIdx
      HasSaveSpot := saveSpotStart ≥ 0
      SaveSpotStart := saveSpotStart
      SaveSpot := mark
      Error := newState.errHand.err
      ErrorStart := errStart
      Consumed := 0
      Output := output }
  { st with parserCache :=
      cacheValue (fun r => (r.pos : Int)) st.maxDel st.parserCache id result }

/-- `State.CachedParserResult`. -/
def State.CachedParserResult (st : State) (id : Nat) : Option ParserResult :=
  cachedValue st.parserCache id (fun r => r.pos == st.input.pos)

/-- `State.ClearAllCaches`: empty the three error-handling caches; the
output cache is deliberately kept. -/
def State.ClearAllCaches (st : State) : State :=
  { st with
      recovererWasteCache := fun _ => []
      recovererWasteIdxCache := fun _ => []
      parserCache := fun _ => [] }

/-- Byte offset of the first newline in a character list, `-1` if none
(Go `strings.IndexByte(s, 0x0A)`). -/
def firstNlOffset : List Char → Int
  | [] => -1
  | c :: cs =>
    if c = '\n' then 0
    else
      let r := firstNlOffset cs
      if r ≥ 0 then (c.utf8Size : Int) + r else -1

/-- `State.tryWhere`: if `pos` lies in the line `(prevNl, nextNl]`,
return its line number, 0-based column and source line. -/
def tryWhere (text : List Char) (prevNl : Int) (pos : Nat) (nextNl : Int)
    (lineNum : Int) : Int × Int × List Char × Bool :=
  if prevNl < (pos : Int) ∧ (pos : Int) ≤ nextNl then
    (lineNum, (pos : Int) - prevNl - 1,
      takeBytes (dropBytes text (prevNl + 1).toNat) (nextNl - prevNl - 1).toNat, true)
  else (1, 0, [], false)

/-- `State.whereForward`: scan forward newline by newline until the line
holding `pos` is found.  The source loop would run out of the text (and
panic on the slice bound) if `pos` lay beyond it; the fuel guards those
unreachable paths. -/
def whereForward (text : List Char) (pos : Nat) :
    Nat → Int → Int → Int × Int × List Char
  | 0, _, _ => (1, 0, [])
  | fuel + 1, lineNum, prevNl =>
    let idx := firstNlOffset (dropBytes text (prevNl + 1).toNat)
    let nextNl : Int := if idx < 0 then (utf8Len text : Int) else idx + prevNl + 1
    let r := tryWhere text prevNl pos nextNl lineNum
    if r.2.2.2 then (r.1, r.2.1, r.2.2.1)
    else whereForward text pos fuel (lineNum + 1) nextNl

/-- `State.whereBackward`: scan backward newline by newline until the
line holding `pos` is found; fuel as in `whereForward`. -/
def whereBackward (text : List Char) (pos : Nat) :
    Nat → Int → Int → Int × Int × List Char
  | 0, _, _ => (1, 0, [])
  | fuel + 1, lineNum, nextNl =>
    let prevNl := lastNlOffset (takeBytes text nextNl.toNat)
    let ln := lineNum - 1
    let r := tryWhere text prevNl pos nextNl ln
    if r.2.2.2 then (r.1, r.2.1, r.2.2.1)
    else whereBackward text pos fuel ln prevNl

/-- `State.textAround`: resolve `(line, col, srcLine)` for a byte
position, scanning forward or backward from `prevNl`, whichever is
shorter.  The Go guard `pos < 0` cannot fire for a `Nat` position. -/
def State.textAround (st : State) (pos : Nat) : Int × Int × List Char :=
  if st.input.text.length = 0 then (1, 0, [])
  else if (pos : Int) > st.input.prevNl then
    whereForward st.input.text pos (st.input.text.length + 2) st.input.line st.input.prevNl
  else if (pos : Int) ≤ st.input.prevNl - (pos : Int) then
    whereForward st.input.text pos (st.input.text.length + 2) 1 (-1)
  else
    whereBackward st.input.text pos (st.input.text.length + 2) st.input.line st.input.prevNl

/-- `State.bytesAround`: a 16-byte window around the position for binary
input.  The source renders the window with Go string conversion (UTF-8);
no claim inspects binary source lines, so a byte-per-char rendering is
used here. -/
def State.bytesAround (st : State) (pos : Nat) : Int × Int × List Char :=
  let start := max 0 ((pos : Int) - 8)
  let endPos := min (start + 16) (st.input.n : Int)
  let start2 := if endPos - start < 16 then max 0 (endPos - 16) else start
  let srcLine := ((st.input.bytes.drop start2.toNat).take (endPos - start2).toNat).map
    (fun b => Char.ofNat b)
  (start2, (pos : Int) - start2, srcLine)

/-- `State.newParserError`: a fresh error record at the current
position; `text` keeps Go's zero value until the caller fills it. -/
def State.newParserError (st : State) : ParserError :=
  let lcs := if st.input.binary then st.bytesAround st.input.pos else st.textAround st.input.pos
  { text := "", pos := st.input.pos, line := lcs.1, col := lcs.2.1,
    srcLine := lcs.2.2, binary := st.input.binary, parserID := -1 }

/-- Rendering of a parsing mode name (Go `ParsingMode.String`). -/
def ParsingMode.string : ParsingMode → String
  | .happy => "happy"
  | .err => "error"
  | .handle => "handle"
  | .rewind => "rewind"
  | .escape => "escape"

/-- `State.NewSemanticError`: append a pre-formatted error to the
accumulated errors. -/
def State.NewSemanticError (st : State) (message : String) : State :=
  let e := { st.newParserError with text := message }
  { st with oldErrors := st.oldErrors ++ [e] }

/-- `State.ErrorAgain`: install an error (used both for new errors and
for replaying cached ones); in mode happy the mode becomes `error`, or
`rewind` when a witness is already registered; in any other mode the
call is a programming error. -/
def State.ErrorAgain (st : State) (newErr : Option ParserError) : State :=
  match st.mode with
  | .happy =>
    let st1 := { st with errHand := { st.errHand with err := newErr } }
    if st1.errHand.witnessID = 0 then { st1 with mode := .err }
    else { st1 with mode := .rewind }
  | _ =>
    st.NewSemanticError
      ("programming error: State.NewError/ErrorAgain called in mode " ++ st.mode.string)

/-- `State.NewError`: a syntax error; `expected ` is prepended. -/
def State.NewError (st : State) (message : String) : State :=
  let newErr := { st.newParserError with text := "expected " ++ message }
  st.ErrorAgain (some newErr)

/-- The cache-lookup prefix of `mapData.sequenceHappy` (the happy branch
of the sequence combinator, for `startIdx <= 0`): on a hit a failed run
replays the cached error and a successful run moves the cursor by the
cached `Consumed` count and returns the cached output.  A miss (where
the source goes on to invoke the sub-parsers) is returned as `none`. -/
def mapnHappyCacheHit (mdId : Nat) (st : State) : Option (State × Int) :=
  match st.CachedParserResult mdId with
  | none => none
  | some result =>
    if result.Failed then some (st.ErrorAgain result.Error, 0)
    else some (st.MoveBy result.Consumed, result.Output)

/-- One attempt of the `HandleWitness` retry loop: reset mode to happy
and the cursor to the witness position, apply the deleter with the
current deletion count, return zero output if the culprit is being
ignored, otherwise re-invoke the culprit.  `Sum.inl` is a return from
the loop (the flag records whether the culprit was invoked), `Sum.inr`
continues in mode rewind. -/
def hwAttempt {α : Type} [Inhabited α] (parse : State → State × α)
    (deleter : State → Int → State) (orgPos : Nat) (st : State) :
    (Bool × State × α) ⊕ State :=
  let st1 := deleter { st with mode := .happy, input := { st.input with pos := orgPos } }
    st.errHand.curDel
  if st1.errHand.ignoreErrParser then Sum.inl (false, st1, default)
  else
    let pr := parse st1
    if !pr.1.Failed then Sum.inl (true, pr.1, pr.2)
    else Sum.inr { pr.1 with mode := .rewind }

/-- The retry loop of `HandleWitness` (the `for` loop in the source).
The loop's termination depends on the supplied parser not disturbing the
error-handling slot, so it is embedded with fuel; the last component
counts how often the culprit parser was invoked. -/
def hwLoop {α : Type} [Inhabited α] (parse : State → State × α)
    (deleter : State → Int → State) (maxDel : Int) (orgPos : Nat) :
    Nat → State → Nat → Option (State × α × Nat)
  | 0, _, _ => none
  | fuel + 1, st, cnt =>
    match st.mode with
    | .handle =>
      let st1 := { st with errHand :=
        { st.errHand with err := none, curDel := 1, ignoreErrParser := false } }
      match hwAttempt parse deleter orgPos st1 with
      | Sum.inl (inv, s, out) => some (s, out, cnt + (if inv then 1 else 0))
      | Sum.inr s => hwLoop parse deleter maxDel orgPos fuel s (cnt + 1)
    | .rewind =>
      let cd := st.errHand.curDel + 1
      if cd > maxDel then
        if !st.errHand.ignoreErrParser then
          let st1 := { st with errHand :=
            { st.errHand with curDel := 0, ignoreErrParser := true } }
          match hwAttempt parse deleter orgPos st1 with
          | Sum.inl (inv, s, out) => some (s, out, cnt + (if inv then 1 else 0))
          | Sum.inr s => hwLoop parse deleter maxDel orgPos fuel s (cnt + 1)
        else
          some ({ st with mode := .escape, errHand := { st.errHand with curDel := cd } },
            default, cnt)
      else
        let st1 := { st with errHand := { st.errHand with curDel := cd } }
        match hwAttempt parse deleter orgPos st1 with
        | Sum.inl (inv, s, out) => some (s, out, cnt + (if inv then 1 else 0))
        | Sum.inr s => hwLoop parse deleter maxDel orgPos fuel s (cnt + 1)
    | _ => some (st, default, cnt)

/-- `HandleWitness` in `error.go`.  The deleter is a field of the Go
state; it is passed explicitly because a Lean structure cannot hold a
function over itself.  The source checks `parse.PossibleWitness()` with
an empty true branch (dead code) before forwarding to the indicated
sub-parser.  The fuel feeds the embedded retry loop. -/
def HandleWitness {α : Type} [Inhabited α] (deleter : State → Int → State)
    (fuel : Nat) (st : State) (id : Nat) (idx : Nat)
    (parsers : List (State → State × α)) : Option (State × α × Nat) :=
  if st.errHand.witnessID ≠ id ∨ st.errHand.witnessPos ≠ st.input.pos then
    let pr := (parsers.getD idx (fun s => (s, default))) st
    some (pr.1, pr.2, 0)
  else
    let orgPos := st.input.pos
    let st1 :=
      if st.errHand.culpritIdx ≥ (parsers.length : Int) then
        let s := st.NewSemanticError
          ("programming error: length of sub-parsers is only " ++
            toString parsers.length ++ " but index of culprit sub-parser is " ++
            toString st.errHand.culpritIdx)
        { s with errHand := { s.errHand with culpritIdx := (parsers.length : Int) - 1 } }
      else st
    let parse := parsers.getD st1.errHand.culpritIdx.toNat (fun s => (s, default))
    hwLoop parse deleter st1.maxDel orgPos fuel st1 0

/-- The loop of `DefaultRecovererFunc`: run the parser; on success
return the byte distance from the start; on failure delete one unit and
retry, until the input is exhausted.  The source loop is unbounded, so
it is embedded with fuel (`none` means the fuel ran out). -/
def defaultRecovererLoop (parse : State → State) (state : State) :
    Nat → State → Option Int
  | 0, _ => none
  | fuel + 1, curState =>
    if curState.BytesRemaining > 0 then
      let newState := parse curState
      if !newState.Failed then some (state.ByteCount curState)
      else defaultRecovererLoop parse state fuel (curState.Delete 1)
    else some (-1)

/-- `DefaultRecovererFunc` in `error.go` (with fuel for the unbounded
source loop). -/
def DefaultRecovererFunc (parse : State → State) (fuel : Nat)
    (state : State) : Option Int :=
  defaultRecovererLoop parse state fuel state

/-- A combining recoverer: the list of sub-recoverers and its cache ID
(`CombiningRecoverer` in `error.go`). -/
structure CombiningRecoverer where
  recoverers : List (State → Int)
  id : Nat

/-- The scan of `CombiningRecoverer.Recover` over the sub-recoverers'
results.  The source `break` sits inside a `switch`, so in Go it leaves
only the switch and the surrounding loop continues with the next
sub-recoverer; the translation therefore always consumes the whole
list. -/
def crcLoop : List Int → Int → Int → Int → Int × Int
  | [], waste, idx, _ => (waste, idx)
  | w :: rest, waste, idx, i =>
    if w = -1 then crcLoop rest waste idx (i + 1)
    else if w = 0 then crcLoop rest 0 i (i + 1)
    else if waste < 0 ∨ w < waste then crcLoop rest w i (i + 1)
    else crcLoop rest waste idx (i + 1)

/-- `CombiningRecoverer.Recover`: answer from the waste+index cache on a
hit; otherwise run all sub-recoverers, track the minimal waste and its
index, and cache the pair.  The updated state carries the cache write
(the Go caches are mutated through a shared reference). -/
def CombiningRecoverer.Recover (crc : CombiningRecoverer) (st : State) :
    Int × State :=
  match st.cachedRecovererWasteIdx crc.id with
  | some e => (e.waste, st)
  | none =>
    let wi := crcLoop (crc.recoverers.map (fun r => r st)) (-1) (-1) 0
    (wi.1, st.cacheRecovererWasteIdx crc.id wi.1 wi.2)

/-- `CombiningRecoverer.CachedIndex`. -/
def CombiningRecoverer.CachedIndex (crc : CombiningRecoverer) (st : State) :
    Option Int :=
  (st.cachedRecovererWasteIdx crc.id).map (fun e => e.idx)

/-- `DefaultBinaryDeleter`: one unit is one byte. -/
def DefaultBinaryDeleter (st : State) (count : Int) : State :=
  st.MoveBy count

/-- Word class of `DefaultTextDeleter` (Go `unicode.IsLetter(r) ||
unicode.IsNumber(r) || r == 0x5F`; the Unicode tables of the Go standard
library are modelled on the ASCII range, which covers every input a
claim mentions). -/
def isWordChar (r : Char) : Bool :=
  r.isAlpha || r.isDigit || r = '_'

/-- Space class (Go `unicode.IsSpace` on the Latin-1 range). -/
def isSpaceGo (r : Char) : Bool :=
  r = ' ' || r = '\t' || r = '\n' || r.toNat = 11 || r.toNat = 12 || r = '\r' ||
  r.toNat = 133 || r.toNat = 160

/-- Bracket class; 123 and 125 are the curly braces. -/
def isBracketGo (r : Char) : Bool :=
  r = '(' || r = '[' || r = Char.ofNat 123 || r = Char.ofNat 125 || r = ']' || r = ')'

/-- Punctuation class; 34, 96 and 39 are the double quote, the backtick
and the apostrophe. -/
def isPunctGo (r : Char) : Bool :=
  r = '+' || r = '-' || r = '*' || r = '/' || r = '%' || r = '^' || r = '=' ||
  r = ':' || r = '<' || r = '>' || r = '~' || r = '|' || r = '\\' || r = ';' ||
  r = '.' || r = ',' || r = Char.ofNat 34 || r = Char.ofNat 96 || r = Char.ofNat 39

/-- Rune classification of `DefaultTextDeleter` (the cases in its
switch, in source order). -/
def runeClass (r : Char) : Char :=
  if isWordChar r then 'a'
  else if isSpaceGo r then ' '
  else if isBracketGo r then '('
  else if isPunctGo r then '+'
  else Char.ofNat 0xFFFD

/-- The scan of `DefaultTextDeleter` (Go `strings.IndexFunc` with a
stateful closure over `found` and `oldTyp`): returns the byte offset of
the first rune at which `found` reaches `count`, `-1` if none.  The
closure's `paren` variable is declared inside the closure, so at its use
it always still holds the zero rune, and the differing-bracket test also
requires `typ == oldTyp == 0x28` inside the `typ != oldTyp` branch; both
are reproduced faithfully. -/
def textDelLoop (count : Int) : List Char → Nat → Int → Char → Int
  | [], _, _, _ => -1
  | r :: rest, offset, found, oldTyp =>
    let typ := runeClass r
    let fo :=
      if typ ≠ oldTyp then
        let f1 := if typ ≠ ' ' ∧ oldTyp ≠ Char.ofNat 0 then found + 1 else found
        let f2 := if typ = '(' ∧ oldTyp = '(' ∧ r ≠ Char.ofNat 0 then f1 + 1 else f1
        (f2, typ)
      else (found, oldTyp)
    if fo.1 = count then (offset : Int)
    else textDelLoop count rest (offset + r.utf8Size) fo.1 fo.2

/-- `DefaultTextDeleter`: skip forward over `count` rune-class
transitions; if the scan runs off the input, move to its end. -/
def DefaultTextDeleter (st : State) (count : Int) : State :=
  let byteCount := textDelLoop count st.CurrentString 0 0 (Char.ofNat 0)
  if byteCount < 0 then st.MoveBy st.BytesRemaining
  else st.MoveBy byteCount

/-- Modelled from the spec: input construction is outside the given
files.  Per the spec the cursor starts at position 0 with `prevNl` unset
(`-1`) and 1-based `line` 1, `n` is the byte length of the text, the
caches start empty, and `maxDel` is a small tuning constant (default 3). -/
def mkTextState (text : List Char) : State :=
  { mode := .happy
    input := { text := text, bytes := [], n := utf8Len text, pos := 0,
               prevNl := -1, line := 1, binary := false }
    saveSpot := -1
    recover := true
    errHand := { err := none, witnessID := 0, witnessPos := 0, culpritIdx := 0,
                 curDel := 0, ignoreErrParser := false }
    oldErrors := []
    recovererWasteCache := fun _ => []
    recovererWasteIdxCache := fun _ => []
    parserCache := fun _ => []
    outputCache := fun _ => []
    maxDel := 3
    maxRecursion := 64 }

/-- A parser that always fails: it installs an error and changes nothing
else.  Used to exhibit the behavior of loops that retry a parser. -/
def failParse (st : State) : State :=
  let e : ParserError :=
    { text := "expected x"
      pos := st.input.pos
      line := 1
      col := 0
      srcLine := []
      binary := false
      parserID := -1 }
  { st with errHand := { st.errHand with err := some e } }

/-- The position after `State.MoveBy`: the count is clamped below at 0
and the result at the input length, in every branch of the method. -/
theorem moveBy_pos (st : State) (c : Int) :
    (st.MoveBy c).input.pos = min st.input.n (st.input.pos + (max c 0).toNat) := by
  unfold State.MoveBy
  dsimp only
  split
  · rfl
  · split
    · rfl
    · rfl

/-- The loop of the text case of `State.Delete` computes the sum of the
first `count - j` offered offsets on top of the accumulator. -/
theorem deleteLoop_sum (count : Int) (offs : List Nat) :
    ∀ (bc : Nat) (j : Int), j < count →
      deleteLoop count offs bc j = bc + ((offs.take (count - j).toNat).sum) := by
  induction offs with
  | nil => intro bc j _; simp [deleteLoop]
  | cons i rest ih =>
    intro bc j hj
    unfold deleteLoop
    dsimp only
    by_cases h : j + 1 ≥ count
    · rw [if_pos h]
      have h1 : (count - j).toNat = 1 := by omega
      simp [h1]
    · rw [if_neg h]
      rw [ih (bc + i) (j + 1) (by omega)]
      have h2 : (count - j).toNat = (count - (j + 1)).toNat + 1 := by omega
      rw [h2, List.take_succ_cons, List.sum_cons]
      omega

/-- C9: `State.Delete(count)` with `count ≥ 1` advances the position by
`count` bytes for binary input and, for text input, by the sum of the
byte offsets of the first `count` runes of the remaining input, in both
cases capped at the end of the input; in particular `Delete(1)` on text
input leaves the position unchanged whenever at least one rune
remains. -/
theorem c9_delete_semantics (st : State) (count : Int) (hc : 1 ≤ count) :
    (st.input.binary = true →
      (st.Delete count).input.pos = min st.input.n (st.input.pos + count.toNat)) ∧
    (st.input.binary = false →
      (st.Delete count).input.pos = min st.input.n
        (st.input.pos + ((runeOffsets st.CurrentString 0).take count.toNat).sum)) ∧
    (st.input.binary = false → st.CurrentString ≠ [] → st.input.pos ≤ st.input.n →
      (st.Delete 1).input.pos = st.input.pos) := by
  have hmax : max count 0 = count := by omega
  refine ⟨?_, ?_, ?_⟩
  · intro hb
    unfold State.Delete
    rw [if_neg (by omega), if_pos (by simp [hb])]
    rw [moveBy_pos, hmax]
  · intro hb
    unfold State.Delete
    rw [if_neg (by omega), if_neg (by simp [hb])]
    rw [moveBy_pos]
    rw [deleteLoop_sum count (runeOffsets st.CurrentString 0) 0 0 (by omega)]
    simp only [Int.sub_zero, Nat.zero_add]
    omega
  · intro hb hne hpos
    unfold State.Delete
    rw [if_neg (by omega), if_neg (by simp [hb])]
    rw [moveBy_pos]
    obtain ⟨c, cs, hcs⟩ : ∃ c cs, st.CurrentString = c :: cs := by
      cases h : st.CurrentString with
      | nil => exact absurd h hne
      | cons c cs => exact ⟨c, cs, rfl⟩
    rw [hcs]
    have h1 : deleteLoop 1 (runeOffsets (c :: cs) 0) 0 0 = 0 := by
      rw [deleteLoop_sum 1 (runeOffsets (c :: cs) 0) 0 0 (by omega)]
      simp [runeOffsets]
    rw [h1]
    simpa using Nat.min_eq_right hpos

/-- Witness for C9 at a concrete input: deleting two runes of `abc`
moves the cursor by the offset sum 0 + 1 = 1. -/
theorem c9_delete_semantics_witness :
    ((mkTextState "abc".data).Delete 2).input.pos = 1 := by
  have h := (c9_delete_semantics (mkTextState "abc".data) 2 (by norm_num)).2.1 rfl
  exact h.trans rfl

/-- C8: the insert policy of `cacheValue`: lists of other IDs are
untouched; a missing list is created holding just the value; below
capacity `max(maxDel+1, 8)` an entry with the same key is overwritten in
place and otherwise the value is appended; at capacity the entry whose
key is nearest to the new key is overwritten — so a list that respected
the capacity still respects it afterwards. -/
theorem c8_cacheValue_policy {T : Type} (key : T → Int) (maxDel : Int)
    (cache : Nat → List T) (id : Nat) (v : T)
    (hlen : ((cache id).length : Int) ≤ max (maxDel + 1) 8) :
    (∀ j, j ≠ id → cacheValue key maxDel cache id v j = cache j) ∧
    (cache id = [] → cacheValue key maxDel cache id v id = [v]) ∧
    (cache id ≠ [] → ((cache id).length : Int) < max (maxDel + 1) 8 →
      (∀ i, (cache id).findIdx? (fun t => key t == key v) = some i →
        cacheValue key maxDel cache id v id = (cache id).set i v) ∧
      ((cache id).findIdx? (fun t => key t == key v) = none →
        cacheValue key maxDel cache id v id = (cache id) ++ [v])) ∧
    (cache id ≠ [] → ¬ ((cache id).length : Int) < max (maxDel + 1) 8 →
      cacheValue key maxDel cache id v id =
        (cache id).set (indexOrMinFunc key (cache id) v) v) ∧
    ((cacheValue key maxDel cache id v id).length : Int) ≤ max (maxDel + 1) 8 := by
  have hself : cacheValue key maxDel cache id v id = cacheList key maxDel (cache id) v := by
    unfold cacheValue
    rw [if_pos rfl]
  refine ⟨?_, ?_, ?_, ?_, ?_⟩
  · intro j hj
    unfold cacheValue
    rw [if_neg hj]
  · intro hnil
    rw [hself]
    unfold cacheList
    rw [if_pos (by simp [hnil])]
  · intro hne hlt
    constructor
    · intro i hi
      rw [hself]
      unfold cacheList
      rw [if_neg (by simp [hne]), if_pos hlt, hi]
    · intro hi
      rw [hself]
      unfold cacheList
      rw [if_neg (by simp [hne]), if_pos hlt, hi]
  · intro hne hge
    rw [hself]
    unfold cacheList
    rw [if_neg (by simp [hne]), if_neg hge]
  · rw [hself]
    unfold cacheList
    by_cases hnil : (cache id).isEmpty
    · rw [if_pos hnil]
      simp only [List.length_singleton]
      omega
    · rw [if_neg hnil]
      by_cases hlt : ((cache id).length : Int) < max (maxDel + 1) 8
      · rw [if_pos hlt]
        cases hfi : (cache id).findIdx? (fun t => key t == key v) with
        | none => simp only [List.length_append, List.length_singleton]; omega
        | some i => simp only [List.length_set]; omega
      · rw [if_neg hlt]
        simp only [List.length_set]
        omega

/-- Witness for C8 at a concrete input: inserting into a missing list
creates a singleton list. -/
theorem c8_cacheValue_policy_witness :
    cacheValue (fun t : Int => t) 3 (fun _ => []) 0 5 0 = [5] := by
  have h := c8_cacheValue_policy (fun t : Int => t) 3 (fun _ => []) 0 5 (by norm_num)
  exact h.2.1 rfl

/-- Characterization of the waste component of the scan in
`CombiningRecoverer.Recover`: given that every input is `-1` or
non-negative (the Recoverer contract) and the accumulator is too, the
scan yields `-1` exactly when accumulator and inputs all are `-1`, and
otherwise a minimum of the accumulator and the non-`-1` inputs. -/
theorem crcLoop_spec (ws : List Int) :
    ∀ (waste idx i : Int),
      (∀ w ∈ ws, w = -1 ∨ 0 ≤ w) → (waste = -1 ∨ 0 ≤ waste) →
      ((crcLoop ws waste idx i).1 = -1 ↔ (waste = -1 ∧ ∀ w ∈ ws, w = -1)) ∧
      ((crcLoop ws waste idx i).1 ≠ -1 →
        ((crcLoop ws waste idx i).1 = waste ∨ (crcLoop ws waste idx i).1 ∈ ws) ∧
        (waste ≠ -1 → (crcLoop ws waste idx i).1 ≤ waste) ∧
        (∀ w ∈ ws, w ≠ -1 → (crcLoop ws waste idx i).1 ≤ w)) := by
  induction ws with
  | nil =>
    intro waste idx i _ _
    simp [crcLoop]
  | cons w rest ih =>
    intro waste idx i hw hacc
    have hw0 : w = -1 ∨ 0 ≤ w := hw w (List.mem_cons_self w rest)
    have hwrest : ∀ x ∈ rest, x = -1 ∨ 0 ≤ x := fun x hx => hw x (List.mem_cons_of_mem w hx)
    unfold crcLoop
    by_cases h1 : w = -1
    · rw [if_pos h1]
      obtain ⟨H1, H2⟩ := ih waste idx (i + 1) hwrest hacc
      constructor
      · rw [H1]
        constructor
        · rintro ⟨ha, hb⟩
          refine ⟨ha, ?_⟩
          intro x hx
          rcases List.mem_cons.mp hx with hx1 | hx2
          · rw [hx1]; exact h1
          · exact hb x hx2
        · rintro ⟨ha, hb⟩
          exact ⟨ha, fun x hx => hb x (List.mem_cons_of_mem w hx)⟩
      · intro hne
        obtain ⟨Hm, Hle, Hall⟩ := H2 hne
        refine ⟨?_, Hle, ?_⟩
        · rcases Hm with h | h
          · exact Or.inl h
          · exact Or.inr (List.mem_cons_of_mem w h)
        · intro x hx hxne
          rcases List.mem_cons.mp hx with hx1 | hx2
          · rw [hx1] at hxne; exact absurd h1 hxne
          · exact Hall x hx2 hxne
    · rw [if_neg h1]
      have hwpos : 0 ≤ w := hw0.resolve_left h1
      by_cases h2 : w = 0
      · rw [if_pos h2]
        obtain ⟨H1, H2⟩ := ih 0 i (i + 1) hwrest (Or.inr le_rfl)
        constructor
        · constructor
          · intro hL
            exact absurd ((H1.mp hL).1) (by norm_num)
          · rintro ⟨_, hb⟩
            exact absurd (hb w (List.mem_cons_self w rest)) h1
        · intro hne
          obtain ⟨Hm, Hle, Hall⟩ := H2 hne
          have Hle0 : (crcLoop rest 0 i (i + 1)).1 ≤ 0 := Hle (by norm_num)
          refine ⟨?_, ?_, ?_⟩
          · rcases Hm with h | h
            · refine Or.inr ?_
              rw [h, ← h2]
              exact List.mem_cons_self w rest
            · exact Or.inr (List.mem_cons_of_mem w h)
          · intro hwne
            have : 0 ≤ waste := hacc.resolve_left hwne
            omega
          · intro x hx hxne
            rcases List.mem_cons.mp hx with hx1 | hx2
            · rw [hx1, h2]; exact Hle0
            · exact Hall x hx2 hxne
      · by_cases h3 : waste < 0 ∨ w < waste
        · rw [if_neg h2, if_pos h3]
          obtain ⟨H1, H2⟩ := ih w i (i + 1) hwrest (Or.inr hwpos)
          constructor
          · constructor
            · intro hL
              exact absurd ((H1.mp hL).1) h1
            · rintro ⟨_, hb⟩
              exact absurd (hb w (List.mem_cons_self w rest)) h1
          · intro hne
            obtain ⟨Hm, Hle, Hall⟩ := H2 hne
            have Hlew : (crcLoop rest w i (i + 1)).1 ≤ w := Hle h1
            refine ⟨?_, ?_, ?_⟩
            · rcases Hm with h | h
              · refine Or.inr ?_
                rw [h]
                exact List.mem_cons_self w rest
              · exact Or.inr (List.mem_cons_of_mem w h)
            · intro hwne
              have : 0 ≤ waste := hacc.resolve_left hwne
              omega
            · intro x hx hxne
              rcases List.mem_cons.mp hx with hx1 | hx2
              · rw [hx1]; exact Hlew
              · exact Hall x hx2 hxne
        · rw [if_neg h2, if_neg h3]
          obtain ⟨H1, H2⟩ := ih waste idx (i + 1) hwrest hacc
          have hwaste0 : 0 ≤ waste := by omega
          constructor
          · constructor
            · intro hL
              have := (H1.mp hL).1
              omega
            · rintro ⟨ha, _⟩
              omega
          · intro hne
            obtain ⟨Hm, Hle, Hall⟩ := H2 hne
            have Hlew : (crcLoop rest waste idx (i + 1)).1 ≤ waste := Hle (by omega)
            refine ⟨?_, fun _ => Hlew, ?_⟩
            · rcases Hm with h | h
              · exact Or.inl h
              · exact Or.inr (List.mem_cons_of_mem w h)
            · intro x hx hxne
              rcases List.mem_cons.mp hx with hx1 | hx2
              · rw [hx1]; omega
              · exact Hall x hx2 hxne

/-- C4: `CombiningRecoverer.Recover` returns the cached waste for the
current `(id, pos)` on a cache hit; on a miss — assuming every
sub-recoverer honors the Recoverer contract of returning `-1` or a
non-negative waste — it returns `-1` exactly when every sub-recoverer
returns `-1`, and otherwise the minimum waste over the sub-recoverers
that do not return `-1`. -/
theorem c4_combiningRecoverer_min (crc : CombiningRecoverer) (st : State) :
    (∀ e, st.cachedRecovererWasteIdx crc.id = some e → (crc.Recover st).1 = e.waste) ∧
    (st.cachedRecovererWasteIdx crc.id = none →
      (∀ r ∈ crc.recoverers, r st = -1 ∨ 0 ≤ r st) →
      (((crc.Recover st).1 = -1 ↔ ∀ r ∈ crc.recoverers, r st = -1) ∧
       ((crc.Recover st).1 ≠ -1 →
         (∃ r ∈ crc.recoverers, r st = (crc.Recover st).1) ∧
         (∀ r ∈ crc.recoverers, r st ≠ -1 → (crc.Recover st).1 ≤ r st)))) := by
  constructor
  · intro e he
    unfold CombiningRecoverer.Recover
    rw [he]
  · intro hmiss hw
    have heq : (crc.Recover st).1 =
        (crcLoop (crc.recoverers.map (fun r => r st)) (-1) (-1) 0).1 := by
      unfold CombiningRecoverer.Recover
      rw [hmiss]
    have hws : ∀ w ∈ crc.recoverers.map (fun r => r st), w = -1 ∨ 0 ≤ w := by
      intro w hwm
      obtain ⟨r, hr, hrw⟩ := List.mem_map.mp hwm
      rw [← hrw]
      exact hw r hr
    obtain ⟨H1, H2⟩ :=
      crcLoop_spec (crc.recoverers.map (fun r => r st)) (-1) (-1) 0 hws (Or.inl rfl)
    constructor
    · rw [heq, H1]
      constructor
      · rintro ⟨_, hb⟩
        intro r hr
        exact hb (r st) (List.mem_map.mpr ⟨r, hr, rfl⟩)
      · intro hall
        refine ⟨rfl, ?_⟩
        intro x hxm
        obtain ⟨r, hr, hrw⟩ := List.mem_map.mp hxm
        rw [← hrw]
        exact hall r hr
    · intro hne
      rw [heq] at hne ⊢
      obtain ⟨Hm, _, Hall⟩ := H2 hne
      constructor
      · rcases Hm with h | h
        · exact absurd h hne
        · obtain ⟨r, hr, hrw⟩ := List.mem_map.mp h
          exact ⟨r, hr, hrw⟩
      · intro r hr hrne
        exact Hall (r st) (List.mem_map.mpr ⟨r, hr, rfl⟩) hrne

/-- Demonstration combining recoverer for the witness of C4. -/
def crcDemo : CombiningRecoverer :=
  { recoverers := [fun _ => 3, fun _ => -1, fun _ => 2], id := 9 }

/-- Witness for C4 at a concrete input: with children reporting wastes
3, -1 and 2 on an empty cache, the recoverer does not report `-1`. -/
theorem c4_combiningRecoverer_min_witness :
    ((crcDemo.Recover (mkTextState "a".data)).1 = -1 ↔
      ∀ r ∈ crcDemo.recoverers, r (mkTextState "a".data) = -1) := by
  have hcontract : ∀ r ∈ crcDemo.recoverers,
      r (mkTextState "a".data) = -1 ∨ 0 ≤ r (mkTextState "a".data) := by
    intro r hr
    simp only [crcDemo, List.mem_cons, List.not_mem_nil, or_false] at hr
    rcases hr with h | h | h <;> subst h <;> norm_num
  exact ((c4_combiningRecoverer_min crcDemo (mkTextState "a".data)).2 rfl hcontract).1

/-- A retry attempt with the ignore flag set returns zero output without
invoking the culprit (assuming the deleter leaves the error slot alone). -/
theorem hwAttempt_ignore {α : Type} [Inhabited α] (parse : State → State × α)
    (deleter : State → Int → State) (orgPos : Nat)
    (hdel : ∀ s c, (deleter s c).errHand = s.errHand) (st : State)
    (hig : st.errHand.ignoreErrParser = true) :
    hwAttempt parse deleter orgPos st =
      Sum.inl (false,
        deleter { st with mode := .happy, input := { st.input with pos := orgPos } }
          st.errHand.curDel, (default : α)) := by
  unfold hwAttempt
  simp only [hdel, hig, if_true]

/-- A retry attempt with the ignore flag clear invokes the culprit once
and either returns its successful result or continues in mode rewind
(assuming the deleter leaves the error slot alone). -/
theorem hwAttempt_invoke {α : Type} [Inhabited α] (parse : State → State × α)
    (deleter : State → Int → State) (orgPos : Nat)
    (hdel : ∀ s c, (deleter s c).errHand = s.errHand) (st : State)
    (hig : st.errHand.ignoreErrParser = false) :
    hwAttempt parse deleter orgPos st =
      (let pr := parse (deleter
        { st with mode := .happy, input := { st.input with pos := orgPos } }
        st.errHand.curDel)
       if !pr.1.Failed then Sum.inl (true, pr.1, pr.2)
       else Sum.inr { pr.1 with mode := .rewind }) := by
  unfold hwAttempt
  simp only [hdel, hig, Bool.false_eq_true, if_false]

/-- Bound for the rewind iterations of the `HandleWitness` retry loop:
if the culprit parser and the deleter leave the deletion counter and the
ignore flag alone, a loop entered in mode rewind returns within fuel
`(maxDel - curDel).toNat + 1` and invokes the culprit at most
`(maxDel - curDel).toNat` more times. -/
theorem hwLoop_rewind_bound {α : Type} [Inhabited α]
    (parse : State → State × α) (deleter : State → Int → State)
    (maxDel : Int) (orgPos : Nat)
    (hparse : ∀ s, (parse s).1.errHand.curDel = s.errHand.curDel ∧
       (parse s).1.errHand.ignoreErrParser = s.errHand.ignoreErrParser)
    (hdel : ∀ s c, (deleter s c).errHand = s.errHand) :
    ∀ (fuel : Nat) (st : State) (cnt : Nat), st.mode = .rewind →
      (maxDel - st.errHand.curDel).toNat + 1 ≤ fuel →
      ∃ st2 out cnt2,
        hwLoop parse deleter maxDel orgPos fuel st cnt = some (st2, out, cnt2) ∧
        cnt2 ≤ cnt + (maxDel - st.errHand.curDel).toNat := by
  intro fuel
  induction fuel with
  | zero => intro st cnt _ hf; omega
  | succ n ih =>
    intro st cnt hmode hf
    obtain ⟨md, inp, ss, rc, ⟨er, wid, wpos, cidx, cdel, ign⟩, oe, k1, k2, k3, k4, mD, mR⟩ := st
    dsimp only at hmode hf ⊢
    subst hmode
    unfold hwLoop
    dsimp only
    by_cases hcd : cdel + 1 > maxDel
    · rw [if_pos hcd]
      by_cases hig : ign = true
      · subst hig
        rw [if_neg (by simp)]
        exact ⟨_, _, cnt, rfl, by omega⟩
      · replace hig : ign = false := by revert hig; cases ign <;> simp
        subst hig
        rw [if_pos (by simp)]
        rw [hwAttempt_ignore parse deleter orgPos hdel _ rfl]
        exact ⟨_, _, _, rfl, by simp⟩
    · rw [if_neg hcd]
      by_cases hig : ign = true
      · subst hig
        rw [hwAttempt_ignore parse deleter orgPos hdel _ rfl]
        exact ⟨_, _, _, rfl, by simp⟩
      · replace hig : ign = false := by revert hig; cases ign <;> simp
        subst hig
        rw [hwAttempt_invoke parse deleter orgPos hdel _ rfl]
        dsimp only
        by_cases hfail : (parse (deleter
            { mode := .happy
              input := { inp with pos := orgPos }
              saveSpot := ss
              recover := rc
              errHand := ⟨er, wid, wpos, cidx, cdel + 1, false⟩
              oldErrors := oe
              recovererWasteCache := k1
              recovererWasteIdxCache := k2
              parserCache := k3
              outputCache := k4
              maxDel := mD
              maxRecursion := mR } (cdel + 1))).1.Failed = true
        · rw [hfail]
          set pr := parse (deleter
              { mode := .happy
                input := { inp with pos := orgPos }
                saveSpot := ss
                recover := rc
                errHand := ⟨er, wid, wpos, cidx, cdel + 1, false⟩
                oldErrors := oe
                recovererWasteCache := k1
                recovererWasteIdxCache := k2
                parserCache := k3
                outputCache := k4
                maxDel := mD
                maxRecursion := mR } (cdel + 1)) with hpr
          have hcur : ({ pr.1 with mode := ParsingMode.rewind }).errHand.curDel = cdel + 1 := by
            show pr.1.errHand.curDel = cdel + 1
            rw [hpr, (hparse _).1, hdel]
          obtain ⟨st2, out, cnt2, heq, hle⟩ := ih { pr.1 with mode := .rewind } (cnt + 1) rfl
            (by rw [hcur]; omega)
          refine ⟨st2, out, cnt2, ?_, ?_⟩
          · exact heq
          · rw [hcur] at hle
            omega
        · rw [Bool.not_eq_true] at hfail
          rw [hfail]
          exact ⟨_, _, cnt + 1, rfl, by omega⟩

/-- C2: whenever `HandleWitness` runs at the witness parser (both
`witnessID` and `witnessPos` match the state), its retry loop re-invokes
the culprit sub-parser at most `maxDel + 1` times before returning.
Entered in mode rewind with the deletion budget already spent it either
promotes to ignoring the culprit — returning zero output with
`curDel = 0` and the ignore flag set — or, when already ignoring,
returns in mode escape.  The hypotheses say that the culprit parser and
the deleter do not disturb the retry bookkeeping (deletion counter and
ignore flag), which is exactly what the source relies on for
termination. -/
theorem c2_handleWitness_bounded_retries {α : Type} [Inhabited α]
    (deleter : State → Int → State) (parsers : List (State → State × α))
    (st : State) (id : Nat) (idx : Nat)
    (hm1 : st.errHand.witnessID = id)
    (hm2 : st.errHand.witnessPos = st.input.pos)
    (hcul : st.errHand.culpritIdx < (parsers.length : Int))
    (hmax : 0 ≤ st.maxDel)
    (hcur : 0 ≤ st.errHand.curDel)
    (hdel : ∀ s c, (deleter s c).errHand = s.errHand)
    (hparse : ∀ s,
      ((parsers.getD st.errHand.culpritIdx.toNat (fun t => (t, default))) s).1.errHand.curDel
          = s.errHand.curDel ∧
      ((parsers.getD st.errHand.culpritIdx.toNat (fun t => (t, default))) s).1.errHand.ignoreErrParser
          = s.errHand.ignoreErrParser) :
    (st.mode = .handle ∨ st.mode = .rewind →
      ∃ st2 out cnt,
        HandleWitness deleter (st.maxDel.toNat + 2) st id idx parsers
          = some (st2, out, cnt) ∧ cnt ≤ (st.maxDel + 1).toNat) ∧
    (st.mode = .rewind → st.maxDel ≤ st.errHand.curDel →
      st.errHand.ignoreErrParser = true →
      ∃ st2, HandleWitness deleter (st.maxDel.toNat + 2) st id idx parsers
          = some (st2, (default : α), 0) ∧ st2.mode = .escape) ∧
    (st.mode = .rewind → st.maxDel ≤ st.errHand.curDel →
      st.errHand.ignoreErrParser = false →
      ∃ st2, HandleWitness deleter (st.maxDel.toNat + 2) st id idx parsers
          = some (st2, (default : α), 0) ∧
          st2.errHand.ignoreErrParser = true ∧ st2.errHand.curDel = 0) := by
  obtain ⟨md, inp, ss, rc, ⟨er, wid, wpos, cidx, cdel, ign⟩, oe, k1, k2, k3, k4, mD, mR⟩ := st
  dsimp only at hm1 hm2 hcul hmax hcur hparse ⊢
  have hguard : ¬(wid ≠ id ∨ wpos ≠ inp.pos) := by
    simp [hm1, hm2]
  have hwu : ∀ fuel, HandleWitness deleter fuel
      (State.mk md inp ss rc ⟨er, wid, wpos, cidx, cdel, ign⟩ oe k1 k2 k3 k4 mD mR)
      id idx parsers =
      hwLoop (parsers.getD cidx.toNat (fun t => (t, default))) deleter mD inp.pos fuel
        (State.mk md inp ss rc ⟨er, wid, wpos, cidx, cdel, ign⟩ oe k1 k2 k3 k4 mD mR) 0 := by
    intro fuel
    unfold HandleWitness
    rw [if_neg hguard, if_neg (by dsimp only; omega)]
  refine ⟨?_, ?_, ?_⟩
  · intro hmode
    rcases hmode with hmode | hmode
    · subst hmode
      rw [hwu]
      show ∃ st2 out cnt, hwLoop _ deleter mD inp.pos (mD.toNat + 1 + 1) _ 0
          = some (st2, out, cnt) ∧ cnt ≤ (mD + 1).toNat
      unfold hwLoop
      dsimp only
      rw [hwAttempt_invoke _ deleter inp.pos hdel _ rfl]
      dsimp only
      set parse := parsers.getD cidx.toNat (fun t => (t, (default : α))) with hparsedef
      set pr := parse (deleter
          { mode := .happy
            input := { inp with pos := inp.pos }
            saveSpot := ss
            recover := rc
            errHand := ⟨none, wid, wpos, cidx, 1, false⟩
            oldErrors := oe
            recovererWasteCache := k1
            recovererWasteIdxCache := k2
            parserCache := k3
            outputCache := k4
            maxDel := mD
            maxRecursion := mR } 1) with hpr
      cases hfail : pr.1.Failed
      · exact ⟨_, _, 1, rfl, by omega⟩
      · have hcur1 : ({ pr.1 with mode := ParsingMode.rewind }).errHand.curDel = 1 := by
          show pr.1.errHand.curDel = 1
          rw [hpr, hparsedef, (hparse _).1, hdel]
        obtain ⟨st2, out, cnt2, heq, hle⟩ :=
          hwLoop_rewind_bound parse deleter mD inp.pos
            (by rw [hparsedef]; exact hparse) hdel (mD.toNat + 1)
            { pr.1 with mode := .rewind } 1 rfl (by rw [hcur1]; omega)
        refine ⟨st2, out, cnt2, ?_, ?_⟩
        · exact heq
        · rw [hcur1] at hle
          omega
    · subst hmode
      rw [hwu]
      obtain ⟨st2, out, cnt2, heq, hle⟩ :=
        hwLoop_rewind_bound (parsers.getD cidx.toNat (fun t => (t, default))) deleter
          mD inp.pos hparse hdel (mD.toNat + 2)
          (State.mk .rewind inp ss rc ⟨er, wid, wpos, cidx, cdel, ign⟩ oe k1 k2 k3 k4 mD mR)
          0 rfl (by dsimp only; omega)
      refine ⟨st2, out, cnt2, heq, ?_⟩
      dsimp only at hle
      omega
  · intro hmode hge hig
    subst hmode
    subst hig
    rw [hwu]
    unfold hwLoop
    dsimp only
    rw [if_pos (by omega)]
    rw [if_neg (by simp)]
    exact ⟨_, rfl, rfl⟩
  · intro hmode hge hig
    subst hmode
    subst hig
    rw [hwu]
    unfold hwLoop
    dsimp only
    rw [if_pos (by omega)]
    rw [if_pos (by simp)]
    rw [hwAttempt_ignore _ deleter inp.pos hdel _ rfl]
    refine ⟨_, rfl, ?_, ?_⟩
    · rw [hdel]
    · rw [hdel]

/-- Demonstration culprit parser for the witness of C2: it always
fails, touching nothing but the error slot. -/
def failParseP (s : State) : State × Int :=
  (failParse s, 0)

/-- Demonstration state at the witness for C2: mode handle, witness
coordinates `(4, 0)`, culprit index 0, `maxDel = 3`. -/
def hwDemoState : State :=
  { mkTextState "ab".data with
      mode := .handle
      errHand := { err := none, witnessID := 4, witnessPos := 0, culpritIdx := 0,
                   curDel := 0, ignoreErrParser := false } }

/-- Witness for C2 at a concrete input: an always-failing culprit with
`maxDel = 3` and an identity deleter is re-invoked at most 4 times. -/
theorem c2_handleWitness_bounded_retries_witness :
    ∃ st2 out cnt,
      HandleWitness (fun s _ => s) 5 hwDemoState 4 0 [failParseP] = some (st2, out, cnt) ∧
      cnt ≤ 4 := by
  have h := (c2_handleWitness_bounded_retries (fun s _ => s) [failParseP] hwDemoState 4 0
      rfl rfl (by simp [hwDemoState, mkTextState]) (by simp [hwDemoState, mkTextState])
      (by simp [hwDemoState, mkTextState])
      (fun s c => rfl) (fun s => ⟨rfl, rfl⟩)).1 (Or.inl rfl)
  exact h

/-- C10: `State.ClearAllCaches` empties the recoverer-waste cache, the
combining-recoverer waste+index cache and the parser-result cache, while
the output cache and every other field of the state (cursor, mode,
save-spot mark, error slot, accumulated errors, tuning constants) are
left unchanged. -/
theorem c10_clearAllCaches_frame (st : State) :
    (st.ClearAllCaches).recovererWasteCache = (fun _ => []) ∧
    (st.ClearAllCaches).recovererWasteIdxCache = (fun _ => []) ∧
    (st.ClearAllCaches).parserCache = (fun _ => []) ∧
    (st.ClearAllCaches).outputCache = st.outputCache ∧
    (st.ClearAllCaches).mode = st.mode ∧
    (st.ClearAllCaches).input = st.input ∧
    (st.ClearAllCaches).saveSpot = st.saveSpot ∧
    (st.ClearAllCaches).recover = st.recover ∧
    (st.ClearAllCaches).errHand = st.errHand ∧
    (st.ClearAllCaches).oldErrors = st.oldErrors ∧
    (st.ClearAllCaches).maxDel = st.maxDel ∧
    (st.ClearAllCaches).maxRecursion = st.maxRecursion :=
  ⟨rfl, rfl, rfl, rfl, rfl, rfl, rfl, rfl, rfl, rfl, rfl, rfl⟩

/-- C1: code bug.  `State.CacheParserResult` builds its cache entry with
a composite literal that never sets `Consumed`, so every cached entry
records `Consumed = 0`.  A sub-parser run that succeeds after consuming
3 bytes therefore replays through the cache hit of
`mapData.sequenceHappy` with the cursor moved by 0 — the cursor stays at
the lookup position instead of where the original run left it. -/
theorem c1_cache_hit_consumed_bug :
    ((mkTextState "abc".data).MoveBy 3).input.pos = 3 ∧
    (((mkTextState "abc".data).CacheParserResult 7 0 (-1) (-1)
        ((mkTextState "abc".data).MoveBy 3) 42).CachedParserResult 7).map
      (fun r => (r.Consumed, r.Failed)) = some (0, false) ∧
    (mapnHappyCacheHit 7 ((mkTextState "abc".data).CacheParserResult 7 0 (-1) (-1)
        ((mkTextState "abc".data).MoveBy 3) 42)).map
      (fun p => (p.1.input.pos, p.2)) = some (0, 42) :=
  ⟨rfl, rfl, rfl⟩

/-- C5: code bug.  In `CombiningRecoverer.Recover` the `break` under
`case w == 0` sits inside a `switch`, so it leaves only the switch and
the loop goes on to invoke every remaining sub-recoverer; a later
zero-waste child then overwrites the recorded index.  With two children
both reporting waste 0, the cached pair is `(0, 1)` — the index of the
last zero-waste child — where the claim requires index 0 and no second
invocation. -/
theorem c5_combiningRecoverer_no_shortcircuit :
    ((CombiningRecoverer.mk [fun _ => 0, fun _ => 0] 5).Recover (mkTextState "abc".data)).1
      = 0 ∧
    ((CombiningRecoverer.mk [fun _ => 0, fun _ => 0] 5).Recover
        (mkTextState "abc".data)).2.cachedRecovererWasteIdx 5 =
      some (CachedWasteIdx.mk 0 0 1) :=
  ⟨rfl, rfl⟩

/-- C6: code bug.  The differing-bracket rule of `DefaultTextDeleter` is
dead code: its test requires `typ == oldTyp == 0x28` inside the branch
that runs only when `typ != oldTyp`, and the `paren` variable it
compares against is redeclared on every closure call, so it always still
holds the zero rune.  Consequently one delete step on `0x7d 0x29 x`
(close-brace, close-paren, then a word character) skips past both
brackets to byte 2; under the claim the two differing brackets are two
separate transitions and one step would stop after the first bracket. -/
theorem c6_textDeleter_bracket_bug :
    (DefaultTextDeleter
      (mkTextState (Char.ofNat 125 :: Char.ofNat 41 :: Char.ofNat 120 :: [])) 1).input.pos
      = 2 :=
  rfl

/-- C7: code bug.  `State.MoveBy` advances `prevNl` by
`lastNlPos + 1` relative to its previous value instead of anchoring it
at the start of the moved-over text, which is only correct when the
cursor sat directly behind a newline.  Starting from a fresh state over
`ab`, newline, `cd`, newline, `ef` and moving by 4 twice: after the
second move the position is 8 and `prevNl` is 4, but the last newline
before position 8 is at byte 5 (byte 4 holds `d`), so the spec invariant
that `prevNl` is the byte offset of the last newline before `pos` is
violated. -/
theorem c7_moveBy_prevNl_bug :
    (((mkTextState ("ab\ncd\nef").data).MoveBy 4).MoveBy 4).input.pos = 8 ∧
    (((mkTextState ("ab\ncd\nef").data).MoveBy 4).MoveBy 4).input.prevNl = 4 ∧
    lastNlOffset (takeBytes ("ab\ncd\nef").data 8) = 5 :=
  ⟨rfl, rfl, rfl⟩

/-- C3: code bug.  For text input, `State.Delete(1)` does not advance
the position (the loop in `Delete` adds the rune start offsets, and the
first offset is always 0), so the loop of `DefaultRecovererFunc` re-runs
the parser at the same position forever when the parser keeps failing on
a nonempty text input: for every amount of fuel the embedded loop fails
to produce a result, while the claim promises termination with `-1`
after the input is exhausted. -/
theorem c3_defaultRecoverer_nonterminating (fuel : Nat) :
    DefaultRecovererFunc failParse fuel (mkTextState "ab".data) = none := by
  induction fuel with
  | zero => rfl
  | succ n ih =>
    calc DefaultRecovererFunc failParse (n + 1) (mkTextState "ab".data)
        = defaultRecovererLoop failParse (mkTextState "ab".data) n
            ((mkTextState "ab".data).Delete 1) := rfl
      _ = DefaultRecovererFunc failParse n (mkTextState "ab".data) := by
            rw [show (mkTextState "ab".data).Delete 1 = mkTextState "ab".data from rfl]
            rfl
      _ = none := ih

end Parcomb
